import Mathlib

/-!
Shallow embedding of the bigdbm client library (src/bigdbm/client.py,
src/bigdbm/schemas.py, src/bigdbm/validate/email.py,
src/bigdbm/validate/phone.py).

Python strings are sequences of characters; the Python operations used by the
source (`len`, slicing, `startswith`) are modelled on `String.data`, the
underlying character list, so that they compute by kernel reduction.

External HTTP calls (the numverify phone probe, the MillionVerifier email
probe, the paginated result fetch, the bulk PII fetch, the status poll) are
modelled as explicit function parameters or input lists: each embedded
operation takes the oracle describing what the network would answer, and the
embedding records which calls the code would issue.
-/

/-- Python `len(s)` on a string: number of characters. -/
def strLen (s : String) : Nat := s.data.length

/-- Python `s[n:]` on a string: drop the first `n` characters. -/
def strDrop (s : String) (n : Nat) : String := ⟨s.data.drop n⟩

/-- Python `s.startswith(p)`. -/
def strStartsWith (s p : String) : Bool := p.data.isPrefixOf s.data

/-- Python `s.isnumeric()`: non-empty and every character numeric.  The
source only ever feeds IAB category codes (ASCII digit strings) through this
test, so ASCII digits model the numeric character class. -/
def isNumeric (s : String) : Bool := !s.data.isEmpty && s.data.all Char.isDigit

/-! ## schemas.py -/

/-- Payload for creating an IAB job (class `IABJob`, schemas.py:16-56). -/
structure IABJob where
  intent_categories : List String
  zips : List String
  keywords : List String
  domains : List String
  n_hems : Int
deriving DecidableEq, Repr

/-- Constructing an `IABJob`: pydantic runs the `validate_job` model
validator (schemas.py:32-46) after field assignment; it raises exactly when
`intent_categories`, `keywords` and `domains` are all empty (Python list
truthiness), which pydantic surfaces as a `ValidationError`. -/
def mkIABJob (intent_categories zips keywords domains : List String)
    (n_hems : Int) : Except String IABJob :=
  if intent_categories.isEmpty && keywords.isEmpty && domains.isEmpty then
    Except.error "Need at least one of intent categories, keywords, or domains."
  else
    Except.ok ⟨intent_categories, zips, keywords, domains, n_hems⟩

/-- Whether construction succeeded. -/
def exceptOk {ε α : Type} : Except ε α → Bool
  | Except.ok _ => true
  | Except.error _ => false

/-- MD5 intent event as returned by the API (class `IntentEvent`,
schemas.py:59-65): one (identifier, text fragment) row. -/
structure IntentEvent where
  md5 : String
  sentence : String
deriving DecidableEq, Repr

/-- Unique MD5 with all associated sentences (class `UniqueMD5`,
schemas.py:68-88). -/
structure UniqueMD5 where
  md5 : String
  sentences : List String
deriving DecidableEq, Repr

/-- Model of Python `list(set(sentences))` (schemas.py:82).  A CPython set
iterates in an unspecified (hash-dependent) order; this embedding fixes the
first-occurrence order.  Every theorem below that depends on this step either
treats the result up to membership or concerns multiplicities that are
independent of the iteration order. -/
def pyDedupAux (seen : List String) : List String → List String
  | [] => []
  | x :: xs =>
    if x ∈ seen then pyDedupAux seen xs
    else x :: pyDedupAux (x :: seen) xs

/-- Python `list(set(l))` with first-occurrence order (see `pyDedupAux`). -/
def pyDedup (l : List String) : List String := pyDedupAux [] l

/-- One pass of the loop body in `transform_iab_codes` (schemas.py:84-86):
a purely numeric sentence is replaced by its category label via
`code_to_category`, other sentences pass through.

`code_to_category` lives in `bigdbm/taxonomy.py`, which is not among the
repository files given here; the lookup is therefore passed in as the
parameter `tax` (a total map, leaving the behaviour on unmapped codes
unconstrained, which the spec flags as an open question). -/
def resolveSentence (tax : String → String) (s : String) : String :=
  if isNumeric s then tax s else s

/-- The `transform_iab_codes` field validator (schemas.py:79-88): first
`sentences = list(set(sentences))`, then every numeric entry is replaced in
place by its category label. -/
def transform_iab_codes (tax : String → String) (sentences : List String) :
    List String :=
  (pyDedup sentences).map (resolveSentence tax)

/-- Constructing a `UniqueMD5`: pydantic runs `transform_iab_codes` on the
`sentences` field. -/
def mkUniqueMD5 (tax : String → String) (md5 : String)
    (sentences : List String) : UniqueMD5 :=
  ⟨md5, transform_iab_codes tax sentences⟩

/-- An individual's phone number (class `MobilePhone`, schemas.py:91-94). -/
structure MobilePhone where
  phone : String
  do_not_call : Bool
deriving DecidableEq, Repr

/-- Classifications of genders (enum `Gender`, schemas.py:97-102). -/
inductive Gender where
  | male
  | female
  | unknown
  | empty
deriving DecidableEq, Repr

/-- PII in output code 10008 as returned by the API (class `PII`,
schemas.py:105-166). -/
structure PII where
  id : String
  address : String
  city : String
  first_name : String
  last_name : String
  state : String
  zip_code : String
  emails : List String
  gender : Gender
  age : String
  n_household_children : String
  credit_range : String
  home_owner_status : String
  household_income : String
  household_net_worth : String
  marital_status : String
  occupation : String
  n_household_veterans : String
  mobile_phones : List MobilePhone
deriving DecidableEq, Repr

/-- A unique MD5 together with its PII (class `MD5WithPII`,
schemas.py:213-222, which extends `UniqueMD5`). -/
structure MD5WithPII extends UniqueMD5 where
  pii : PII
deriving DecidableEq, Repr

/-! ## client.py -/

/-- Outcome of the `wait_until_completion` polling loop. -/
inductive WaitOutcome where
  | completed
  | failed
  | exhausted
deriving DecidableEq, Repr

/-- Model of `BigDBMClient.wait_until_completion` (client.py:150-158), modelled over
the finite sequence of integers the successive status polls would return.
The result pairs the outcome with the number of polls issued:
`while (status := poll()) != 100: if status > 100: raise; sleep(3)`.
`exhausted` means the supplied status sequence ran out with the loop still
polling (the real loop would keep waiting). -/
def wait_until_completion : List Int → WaitOutcome × Nat
  | [] => (WaitOutcome.exhausted, 0)
  | status :: rest =>
    if status = 100 then (WaitOutcome.completed, 1)
    else if status > 100 then (WaitOutcome.failed, 1)
    else
      let r := wait_until_completion rest
      (r.1, r.2 + 1)

/-- Model of `BigDBMClient.retrieve_md5s` (client.py:190-212), modelled over a fetch
oracle: `fetch p` is the `(totalCount, rows)` content of the response to
`_fetch_result_response(list_queue_id, p)` followed by
`_extract_intent_events`.  The code fetches page 1, reads
`page_count = totalCount`, then maps the page fetch over
`range(2, page_count+1)` and concatenates. -/
def retrieve_md5s (fetch : Nat → Nat × List IntentEvent) : List IntentEvent :=
  let page_count := (fetch 1).1
  (fetch 1).2 ++
    ((List.range' 2 (page_count - 1)).map (fun p => (fetch p).2)).flatten

/-- The ordered list of page numbers `retrieve_md5s` requests: page 1 first
(synchronously), then `range(2, page_count+1)`, i.e. pages 2..page_count,
handed to the worker pool. -/
def retrievePagesFetched (fetch : Nat → Nat × List IntentEvent) : List Nat :=
  1 :: List.range' 2 ((fetch 1).1 - 1)

/-- One step of the dictionary fold in `uniquify_md5s` (client.py:221-225):
`if md5.md5 not in d: d[md5.md5] = []` then `d[md5.md5].append(md5.sentence)`.
A Python dict keeps keys in first-insertion order, which the association
list mirrors. -/
def addEvent : List (String × List String) → IntentEvent →
    List (String × List String)
  | [], e => [(e.md5, [e.sentence])]
  | (k, v) :: rest, e =>
    if k = e.md5 then (k, v ++ [e.sentence]) :: rest
    else (k, v) :: addEvent rest e

/-- The grouping dictionary `md5s_dict` built by `uniquify_md5s`. -/
def groupEvents (events : List IntentEvent) : List (String × List String) :=
  events.foldl addEvent []

/-- Model of `BigDBMClient.uniquify_md5s` (client.py:214-231): group the raw events
by MD5, then build a `UniqueMD5` per key, whose construction runs the
`transform_iab_codes` validator on the collected sentences. -/
def uniquify_md5s (tax : String → String) (events : List IntentEvent) :
    List UniqueMD5 :=
  (groupEvents events).map (fun kv => mkUniqueMD5 tax kv.1 kv.2)

/-- The raw-event rows carrying the fragments `ss` under the identifier
`k`, one row per fragment. -/
def feedEvents (k : String) (ss : List String) : List IntentEvent :=
  ss.map (fun s => ⟨k, s⟩)

/-- Feeding a list of per-identifier fragment groups back in as raw events,
one event per fragment: the input used to re-aggregate an aggregation's own
output (the spec's idempotence property). -/
def toIntentEvents (us : List UniqueMD5) : List IntentEvent :=
  us.flatMap (fun u => feedEvents u.md5 u.sentences)

/-- Model of `BigDBMClient.pii_for_unique_md5s` (client.py:276-301), modelled over the
already-unwrapped bulk response of `_pull_pii` as an association list from
MD5 to `PII` (`_pull_pii` returns `returnData` with each single-element list
unwrapped; `PII.from_api_dict`'s parsing of the raw dictionary is outside
the claims settled here, so the oracle yields parsed `PII` values).  For each
input MD5 present in the response an `MD5WithPII` is built (whose pydantic
construction re-runs `transform_iab_codes` on the sentences); MD5s absent
from the response are skipped. -/
def pii_for_unique_md5s (tax : String → String)
    (pii_data : List (String × PII)) (unique_md5s : List UniqueMD5) :
    List MD5WithPII :=
  unique_md5s.filterMap (fun m =>
    (pii_data.lookup m.md5).map (fun p =>
      ⟨mkUniqueMD5 tax m.md5 m.sentences, p⟩))

/-! ## validate/phone.py -/

/-- The result of `PhoneValidator._validate_phone` on one phone string:
the boolean verdict, and the number sent to the external numverify probe
when one was issued (`none` when the code answers without a network call). -/
structure PhoneCheck where
  result : Bool
  probed : Option String
deriving DecidableEq, Repr

/-- The normalization prefix of `PhoneValidator._validate_phone`
(phone.py:22-27): strip a leading `"+1"`, then strip a leading `"1"` from an
11-character remainder. -/
def normalizePhone (phone : String) : String :=
  let p1 := if strStartsWith phone "+1" then strDrop phone 2 else phone
  if strLen p1 = 11 && strStartsWith p1 "1" then strDrop p1 1 else p1

/-- Model of `PhoneValidator._validate_phone` (phone.py:20-47), with the numverify
service modelled by the oracle `probe`: after normalization, a string whose
length is not exactly 10 is invalid with no probe issued; otherwise the
normalized number is probed and the probe's verdict returned. -/
def validatePhone (probe : String → Bool) (phone : String) : PhoneCheck :=
  let p := normalizePhone phone
  if strLen p ≠ 10 then ⟨false, none⟩
  else ⟨probe p, some p⟩

/-- Model of `PhoneValidator.validate` (phone.py:49-73): collect every phone across
all records, probe each through `_validate_phone`, and rewrite each record's
phone list to the phones whose number appears among the valid ones.  The
thread pool (`executor.map`) keeps results in input order, which the list
map mirrors. -/
def PhoneValidator_validate (probe : String → Bool) (md5s : List MD5WithPII) :
    List MD5WithPII :=
  let all_phones : List String :=
    md5s.flatMap (fun m => m.pii.mobile_phones.map (fun ph => ph.phone))
  let valid_phones : List String :=
    all_phones.filter (fun p => (validatePhone probe p).result)
  md5s.map (fun m =>
    { m with pii := { m.pii with
        mobile_phones := m.pii.mobile_phones.filter
          (fun ph => ph.phone ∈ valid_phones) } })

/-- Model of `HasPhoneValidator.validate` (phone.py:84-86): keep only records with a
non-empty phone list. -/
def HasPhoneValidator_validate (md5s : List MD5WithPII) : List MD5WithPII :=
  md5s.filter (fun m => !m.pii.mobile_phones.isEmpty)

/-- Model of `DNCValidator.validate` (phone.py:95-109).  The loop `continue`s past a
record with an empty phone list, so such a record is never appended to
`return_hems`: it is dropped.  A record with phones is kept exactly when its
first phone is not flagged do-not-call. -/
def DNCValidator_validate (md5s : List MD5WithPII) : List MD5WithPII :=
  md5s.filter (fun m =>
    match m.pii.mobile_phones with
    | [] => false
    | p :: _ => !p.do_not_call)

/-- Model of `CallableValidator.validate` (phone.py:127-129) with the default
sub-validators (phone.py:124-125): `HasPhoneValidator` then
`DNCValidator`. -/
def CallableValidator_validate (md5s : List MD5WithPII) : List MD5WithPII :=
  DNCValidator_validate (HasPhoneValidator_validate md5s)

/-! ## validate/email.py -/

/-- Model of `EmailValidator.validate` (email.py:39-63): collect every email across
all records, probe each through the MillionVerifier oracle, and rewrite each
record's email list to the emails that appear among the valid ones. -/
def EmailValidator_validate (probe : String → Bool) (md5s : List MD5WithPII) :
    List MD5WithPII :=
  let all_emails : List String := md5s.flatMap (fun m => m.pii.emails)
  let valid_emails : List String := all_emails.filter probe
  md5s.map (fun m =>
    { m with pii := { m.pii with
        emails := m.pii.emails.filter (fun e => e ∈ valid_emails) } })

/-! ## Concrete sample values used by counterexamples and witnesses -/

/-- A category lookup mapping code "7" to "Sports" and leaving everything
else alone, as in the spec's deduplication scenario. -/
def tax7 : String → String := fun s => if s = "7" then "Sports" else s

/-- A category lookup all of whose labels are the non-numeric "Sports". -/
def taxConst : String → String := fun _ => "Sports"

/-- A concrete `PII` value with the given phone and email lists. -/
def samplePII (phones : List MobilePhone) (emails : List String) : PII :=
  ⟨"id1", "10 Main St", "Springfield", "Ada", "Lovelace", "VA", "00001",
   emails, Gender.unknown, "30", "0", "A", "Own", "50k", "100k",
   "Single", "Engineer", "0", phones⟩

/-- A record whose PII has an empty phone list. -/
def noPhoneRecord : MD5WithPII :=
  ⟨⟨"m0", ["frag"]⟩, samplePII [] ["a@b.c"]⟩

/-- A record whose primary phone is flagged do-not-call. -/
def dncFirstRecord : MD5WithPII :=
  ⟨⟨"m1", ["frag"]⟩, samplePII [⟨"p1", true⟩, ⟨"p2", false⟩] []⟩

/-- A record whose primary phone is not flagged do-not-call. -/
def cleanFirstRecord : MD5WithPII :=
  ⟨⟨"m2", ["frag"]⟩, samplePII [⟨"p3", false⟩] []⟩

/-! ## Helper lemmas -/

theorem pyDedupAux_mem (a : String) : ∀ (l seen : List String),
    (a ∈ pyDedupAux seen l ↔ (a ∈ l ∧ a ∉ seen)) := by
  intro l
  induction l with
  | nil => intro seen; simp [pyDedupAux]
  | cons x xs ih =>
    intro seen
    simp only [pyDedupAux]
    by_cases hx : x ∈ seen
    · rw [if_pos hx, ih]
      simp only [List.mem_cons]
      constructor
      · rintro ⟨h1, h2⟩; exact ⟨Or.inr h1, h2⟩
      · rintro ⟨h1 | h1, h2⟩
        · exact absurd (h1 ▸ hx) h2
        · exact ⟨h1, h2⟩
    · rw [if_neg hx]
      simp only [List.mem_cons, ih, List.mem_cons]
      by_cases hax : a = x
      · subst hax; simp [hx]
      · simp [hax]

theorem pyDedup_mem (a : String) (l : List String) : a ∈ pyDedup l ↔ a ∈ l := by
  simp [pyDedup, pyDedupAux_mem]

theorem pyDedup_ne_nil (l : List String) (h : l ≠ []) : pyDedup l ≠ [] := by
  cases l with
  | nil => exact absurd rfl h
  | cons x xs => simp [pyDedup, pyDedupAux]

theorem forall2_map_self {α β : Type} (R : β → α → Prop) (f : α → β)
    (h : ∀ x, R (f x) x) : ∀ (l : List α), List.Forall₂ R (l.map f) l
  | [] => List.Forall₂.nil
  | x :: xs => List.Forall₂.cons (h x) (forall2_map_self R f h xs)

/-! ## Claim theorems -/

/-- C1: evaluating `DNCValidator.validate` at the failing input — a record
whose phone list is empty — shows the record is dropped (the loop's
`continue` skips appending it), although the claim, and the validator's own
docstring, say such a record is kept unchanged.  The other two conjuncts
evaluate the claim's DNC scenario: a record whose primary phone is flagged
do-not-call is dropped, one whose primary phone is clean is kept. -/
theorem C1_dnc_no_phone_dropped :
    noPhoneRecord.pii.mobile_phones = [] ∧
    DNCValidator_validate [noPhoneRecord] = [] ∧
    DNCValidator_validate [dncFirstRecord] = [] ∧
    DNCValidator_validate [cleanFirstRecord] = [cleanFirstRecord] := by
  decide

/-- C2 counterexample: with code "7" resolving to "Sports", aggregating the
events [(m1,"7"), (m1,"Sports"), (m2,"7")] does NOT give m1 the fragment set
{"Sports"}: deduplication runs before code resolution
(`sentences = list(set(sentences))` precedes the numeric lookup), so m1's
code "7" and its label "Sports" survive deduplication as distinct strings
and both resolve to "Sports", leaving a duplicated fragment. -/
theorem C2_counterexample :
    (uniquify_md5s tax7 [⟨"m1", "7"⟩, ⟨"m1", "Sports"⟩, ⟨"m2", "7"⟩]).map
        UniqueMD5.sentences = [["Sports", "Sports"], ["Sports"]] ∧
    ¬ (["Sports", "Sports"] : List String).Nodup ∧
    uniquify_md5s tax7 [⟨"m1", "7"⟩, ⟨"m1", "Sports"⟩, ⟨"m2", "7"⟩]
      ≠ [⟨"m1", ["Sports"]⟩, ⟨"m2", ["Sports"]⟩] := by
  decide

/-- C2 (amended): deduplication is applied BEFORE numeric codes are resolved
to labels, so fragments that only become equal after resolution are not
merged: the events [(m1,"7"), (m1,"Sports"), (m2,"7")] with code
"7" resolving to "Sports" yield [(m1,["Sports","Sports"]), (m2,["Sports"])]. -/
theorem C2_dedup_before_resolution :
    uniquify_md5s tax7 [⟨"m1", "7"⟩, ⟨"m1", "Sports"⟩, ⟨"m2", "7"⟩]
      = [⟨"m1", ["Sports", "Sports"]⟩, ⟨"m2", ["Sports"]⟩] := by
  decide

/-- C3: for every status value v observed by `wait_until_completion`:
v < 100 continues polling (the polls issued are one plus those of the rest
of the status stream, and the outcome is whatever the remaining stream
yields); v = 100 returns normally after that single poll; v > 100 fails
after that single poll, with no further status polls issued. -/
theorem C3_wait_status_behaviour (v : Int) (rest : List Int) :
    (v < 100 → wait_until_completion (v :: rest) =
      ((wait_until_completion rest).1, (wait_until_completion rest).2 + 1)) ∧
    (wait_until_completion ((100 : Int) :: rest) = (WaitOutcome.completed, 1)) ∧
    (v > 100 → wait_until_completion (v :: rest) = (WaitOutcome.failed, 1)) := by
  refine ⟨?_, ?_, ?_⟩
  · intro h
    have h1 : ¬ (v = 100) := by omega
    have h2 : ¬ (v > 100) := by omega
    simp [wait_until_completion, h1, h2]
  · simp [wait_until_completion]
  · intro h
    have h1 : ¬ (v = 100) := by omega
    simp [wait_until_completion, h1, h]

/-- C3 witness: at the concrete status streams [50, 100] and [150], the
classification theorem evaluates as the claim says: 50 < 100 polls on, and
a first status of 150 fails after exactly one poll. -/
theorem C3_wait_status_behaviour_witness :
    (50 : Int) < 100 ∧
    wait_until_completion [(50 : Int), 100] =
      ((wait_until_completion [(100 : Int)]).1,
       (wait_until_completion [(100 : Int)]).2 + 1) ∧
    wait_until_completion [(150 : Int)] = (WaitOutcome.failed, 1) :=
  ⟨by decide, (C3_wait_status_behaviour 50 [100]).1 (by decide),
   (C3_wait_status_behaviour 150 []).2.2 (by decide)⟩

/-- C4: constructing an `IABJob` fails exactly when the category, keyword
and domain lists are all empty, and the zip list plays no role in the
check. -/
theorem C4_iabjob_validity (c z k d : List String) (n : Int) :
    (exceptOk (mkIABJob c z k d n) = true ↔ ¬ (c = [] ∧ k = [] ∧ d = [])) ∧
    (∀ z2 : List String,
      exceptOk (mkIABJob c z k d n) = exceptOk (mkIABJob c z2 k d n)) := by
  have hcond : (c.isEmpty && k.isEmpty && d.isEmpty) = true ↔
      (c = [] ∧ k = [] ∧ d = []) := by
    simp [List.isEmpty_iff, and_assoc]
  constructor
  · unfold mkIABJob
    by_cases hb : (c.isEmpty && k.isEmpty && d.isEmpty) = true
    · rw [if_pos hb]
      exact iff_of_false (by simp [exceptOk]) (not_not_intro (hcond.mp hb))
    · rw [if_neg hb]
      exact iff_of_true rfl (fun hh => hb (hcond.mpr hh))
  · intro z2
    unfold mkIABJob
    by_cases hb : (c.isEmpty && k.isEmpty && d.isEmpty) = true
    · rw [if_pos hb, if_pos hb]
    · rw [if_neg hb, if_neg hb]
      rfl

/-- C5 counterexample: the string "abcdefghij" does not reduce to 10 digits
(it contains no digit at all), yet `_validate_phone` does not judge it
invalid locally: the length-10 check passes and an external probe is issued
with it, whose verdict is returned.  The code checks only the character
count, not digit-hood. -/
theorem C5_counterexample :
    isNumeric (normalizePhone "abcdefghij") = false ∧
    validatePhone (fun _ => true) "abcdefghij" =
      ⟨true, some "abcdefghij"⟩ := by
  decide

/-- C5 (amended): `_validate_phone` strips a leading "+1", then a leading
"1" from an 11-character remainder; any string that does not reduce to
exactly 10 CHARACTERS (the code checks length only, not digit-hood) is
judged invalid with no probe issued, and any 10-character remainder is sent
to the probe: "+11234567890" and "11234567890" both normalize to
"1234567890" and proceed to the probe, while "123" is invalid with no probe
issued. -/
theorem C5_phone_normalization (probe : String → Bool) :
    (validatePhone probe "+11234567890" =
      ⟨probe "1234567890", some "1234567890"⟩) ∧
    (validatePhone probe "11234567890" =
      ⟨probe "1234567890", some "1234567890"⟩) ∧
    (validatePhone probe "123" = ⟨false, none⟩) ∧
    (∀ phone : String, strLen (normalizePhone phone) ≠ 10 →
      validatePhone probe phone = ⟨false, none⟩) ∧
    (∀ phone : String, strLen (normalizePhone phone) = 10 →
      validatePhone probe phone =
        ⟨probe (normalizePhone phone), some (normalizePhone phone)⟩) := by
  refine ⟨?_, ?_, ?_, ?_, ?_⟩
  · have h1 : normalizePhone "+11234567890" = "1234567890" := by decide
    have h2 : ¬ (strLen ("1234567890" : String) ≠ 10) := by decide
    unfold validatePhone
    rw [h1, if_neg h2]
  · have h1 : normalizePhone "11234567890" = "1234567890" := by decide
    have h2 : ¬ (strLen ("1234567890" : String) ≠ 10) := by decide
    unfold validatePhone
    rw [h1, if_neg h2]
  · have h : strLen (normalizePhone "123") ≠ 10 := by decide
    unfold validatePhone
    rw [if_pos h]
  · intro phone h
    unfold validatePhone
    rw [if_pos h]
  · intro phone h
    unfold validatePhone
    rw [if_neg (by omega : ¬ (strLen (normalizePhone phone) ≠ 10))]

/-- C9: the paginated collection fetches page 1 first, then exactly pages
2..totalPageCount, each exactly once and nothing else; when page 1 reports
a total of 3 pages, exactly the two additional pages 2 and 3 are fetched;
when the total is 1 or less, no additional page is fetched; and the
collected events are page 1's rows followed by the rows of the additional
pages, in that page order. -/
theorem C9_pagination (fetch : Nat → Nat × List IntentEvent) :
    (retrievePagesFetched fetch).head? = some 1 ∧
    (retrievePagesFetched fetch).Nodup ∧
    (∀ p : Nat, p ∈ retrievePagesFetched fetch ↔
      p = 1 ∨ (2 ≤ p ∧ p ≤ (fetch 1).1)) ∧
    ((fetch 1).1 = 3 → retrievePagesFetched fetch = [1, 2, 3]) ∧
    ((fetch 1).1 ≤ 1 → retrievePagesFetched fetch = [1]) ∧
    retrieve_md5s fetch = (fetch 1).2 ++
      (((retrievePagesFetched fetch).tail).map (fun p => (fetch p).2)).flatten := by
  refine ⟨rfl, ?_, ?_, ?_, ?_, rfl⟩
  · refine List.nodup_cons.mpr ⟨?_, ?_⟩
    · intro h
      have := List.mem_range'_1.mp h
      omega
    · exact List.nodup_range' 2 _
  · intro p
    simp only [retrievePagesFetched, List.mem_cons, List.mem_range'_1]
    omega
  · intro h
    simp only [retrievePagesFetched, h]
    rfl
  · intro h
    simp only [retrievePagesFetched]
    have h0 : (fetch 1).1 - 1 = 0 := by omega
    rw [h0]
    rfl

/-- C6: for every bulk-PII response and every input identifier list, the
identifiers of the records `pii_for_unique_md5s` returns are a subset of the
input identifiers, the output is at most as long as the input, and
identifiers absent from the response are silently omitted rather than
causing an error (the function is total and simply skips them). -/
theorem C6_enrichment_subset (tax : String → String)
    (pii_data : List (String × PII)) (l : List UniqueMD5) :
    ((pii_for_unique_md5s tax pii_data l).map (fun r => r.md5)) ⊆
      l.map (fun m => m.md5) ∧
    (pii_for_unique_md5s tax pii_data l).length ≤ l.length := by
  constructor
  · intro a ha
    simp only [List.mem_map] at ha ⊢
    obtain ⟨r, hr, rfl⟩ := ha
    simp only [pii_for_unique_md5s, List.mem_filterMap] at hr
    obtain ⟨m, hm, hmap⟩ := hr
    obtain ⟨p, hlk, rfl⟩ := Option.map_eq_some'.mp hmap
    exact ⟨m, hm, rfl⟩
  · exact List.length_filterMap_le _ _

/-- C7: the default composite CallableValidator (HasPhoneValidator then
DNCValidator) never returns a record that the phone-presence filter alone
would have dropped: its output is a subset of HasPhoneValidator's output on
the same input. -/
theorem C7_callable_subset_hasphone (l : List MD5WithPII) :
    CallableValidator_validate l ⊆ HasPhoneValidator_validate l := by
  intro a ha
  exact (List.filter_sublist _).subset ha

/-- C10: EmailValidator.validate and PhoneValidator.validate each return
exactly as many records as they were given, in the same order, and the only
change either makes to a record is shrinking its email list (respectively
its phone list) to a sublist; every other field of the record is
unchanged. -/
theorem C10_validators_frame (eprobe pprobe : String → Bool)
    (l : List MD5WithPII) :
    ((EmailValidator_validate eprobe l).length = l.length ∧
      List.Forall₂ (fun out inp =>
        out.pii.emails.Sublist inp.pii.emails ∧
        out = { inp with pii := { inp.pii with emails := out.pii.emails } })
        (EmailValidator_validate eprobe l) l) ∧
    ((PhoneValidator_validate pprobe l).length = l.length ∧
      List.Forall₂ (fun out inp =>
        out.pii.mobile_phones.Sublist inp.pii.mobile_phones ∧
        out = { inp with pii :=
          { inp.pii with mobile_phones := out.pii.mobile_phones } })
        (PhoneValidator_validate pprobe l) l) := by
  have hE : List.Forall₂ (fun out inp =>
      out.pii.emails.Sublist inp.pii.emails ∧
      out = { inp with pii := { inp.pii with emails := out.pii.emails } })
      (EmailValidator_validate eprobe l) l := by
    simp only [EmailValidator_validate]
    exact forall2_map_self _ _ (fun x => ⟨List.filter_sublist _, rfl⟩) l
  have hP : List.Forall₂ (fun out inp =>
      out.pii.mobile_phones.Sublist inp.pii.mobile_phones ∧
      out = { inp with pii :=
        { inp.pii with mobile_phones := out.pii.mobile_phones } })
      (PhoneValidator_validate pprobe l) l := by
    simp only [PhoneValidator_validate]
    exact forall2_map_self _ _ (fun x => ⟨List.filter_sublist _, rfl⟩) l
  exact ⟨⟨hE.length_eq, hE⟩, ⟨hP.length_eq, hP⟩⟩

theorem addEvent_keys (acc : List (String × List String)) (e : IntentEvent) :
    (addEvent acc e).map Prod.fst =
      if e.md5 ∈ acc.map Prod.fst then acc.map Prod.fst
      else acc.map Prod.fst ++ [e.md5] := by
  induction acc with
  | nil => simp [addEvent]
  | cons kv rest ih =>
    obtain ⟨k, v⟩ := kv
    by_cases hk : k = e.md5
    · subst hk; simp [addEvent]
    · have hk2 : ¬ e.md5 = k := fun h => hk h.symm
      simp only [addEvent, if_neg hk, List.map_cons, ih, List.mem_cons]
      by_cases hmem : e.md5 ∈ rest.map Prod.fst
      · simp [hmem, hk2]
      · simp [hmem, hk2]

theorem foldl_addEvent_keys_nodup (evs : List IntentEvent) :
    ∀ acc : List (String × List String), (acc.map Prod.fst).Nodup →
      ((evs.foldl addEvent acc).map Prod.fst).Nodup := by
  induction evs with
  | nil => intro acc h; simpa using h
  | cons e rest ih =>
    intro acc h
    simp only [List.foldl_cons]
    apply ih
    rw [addEvent_keys]
    split
    · exact h
    · next hmem =>
      refine List.nodup_append.mpr ⟨h, List.nodup_singleton _, ?_⟩
      intro a ha hb
      rw [List.mem_singleton] at hb
      exact hmem (hb ▸ ha)

theorem groupEvents_keys_nodup (evs : List IntentEvent) :
    ((groupEvents evs).map Prod.fst).Nodup :=
  foldl_addEvent_keys_nodup evs [] (by simp)

theorem addEvent_vals_ne_nil (acc : List (String × List String))
    (e : IntentEvent) (h : ∀ kv ∈ acc, kv.2 ≠ []) :
    ∀ kv ∈ addEvent acc e, kv.2 ≠ [] := by
  induction acc with
  | nil =>
    intro kv hkv
    simp only [addEvent, List.mem_singleton] at hkv
    subst hkv; simp
  | cons kv0 rest ih =>
    obtain ⟨k, v⟩ := kv0
    intro kv hkv
    by_cases hk : k = e.md5
    · subst hk
      simp only [addEvent, if_true, List.mem_cons] at hkv
      rcases hkv with h1 | h1
      · subst h1; simp
      · exact h kv (List.mem_cons_of_mem _ h1)
    · simp only [addEvent, if_neg hk, List.mem_cons] at hkv
      rcases hkv with h1 | h1
      · subst h1; exact h (k, v) (by simp)
      · exact ih (fun kv2 hkv2 => h kv2 (List.mem_cons_of_mem _ hkv2)) kv h1

theorem foldl_addEvent_vals_ne_nil (evs : List IntentEvent) :
    ∀ acc : List (String × List String), (∀ kv ∈ acc, kv.2 ≠ []) →
      ∀ kv ∈ evs.foldl addEvent acc, kv.2 ≠ [] := by
  induction evs with
  | nil => intro acc h; simpa using h
  | cons e rest ih =>
    intro acc h
    simp only [List.foldl_cons]
    exact ih (addEvent acc e) (addEvent_vals_ne_nil acc e h)

theorem groupEvents_vals_ne_nil (evs : List IntentEvent) :
    ∀ kv ∈ groupEvents evs, kv.2 ≠ [] :=
  foldl_addEvent_vals_ne_nil evs [] (by simp)

theorem addEvent_fresh (acc : List (String × List String)) (e : IntentEvent)
    (h : e.md5 ∉ acc.map Prod.fst) :
    addEvent acc e = acc ++ [(e.md5, [e.sentence])] := by
  induction acc with
  | nil => simp [addEvent]
  | cons kv rest ih =>
    obtain ⟨k, v⟩ := kv
    have hk : ¬ k = e.md5 := by
      intro hh
      exact h (by simp [hh])
    simp only [addEvent, if_neg hk, List.cons_append, List.cons.injEq, true_and]
    exact ih (fun hm => h (by simp at hm ⊢; exact Or.inr hm))

theorem addEvent_update (acc1 : List (String × List String)) (k : String)
    (v : List String) (acc2 : List (String × List String)) (s : String)
    (h : k ∉ acc1.map Prod.fst) :
    addEvent (acc1 ++ (k, v) :: acc2) ⟨k, s⟩ =
      acc1 ++ (k, v ++ [s]) :: acc2 := by
  induction acc1 with
  | nil => simp [addEvent]
  | cons kv rest ih =>
    obtain ⟨k1, v1⟩ := kv
    have hk : ¬ k1 = k := by
      intro hh
      exact h (by simp [hh])
    simp only [List.cons_append, addEvent, if_neg hk, List.cons.injEq, true_and]
    exact ih (fun hm => h (List.mem_cons_of_mem _ hm))

theorem foldl_feed_existing (k : String) (ss : List String) :
    ∀ (v : List String) (acc1 acc2 : List (String × List String)),
    k ∉ acc1.map Prod.fst →
    List.foldl addEvent (acc1 ++ (k, v) :: acc2) (feedEvents k ss) =
      acc1 ++ (k, v ++ ss) :: acc2 := by
  induction ss with
  | nil => intro v acc1 acc2 _; simp [feedEvents]
  | cons s rest ih =>
    intro v acc1 acc2 h
    simp only [feedEvents, List.map_cons, List.foldl_cons]
    rw [addEvent_update acc1 k v acc2 s h]
    have hrec := ih (v ++ [s]) acc1 acc2 h
    simp only [feedEvents] at hrec
    rw [hrec, List.append_assoc]
    simp

theorem foldl_feed_fresh (k : String) (s : String) (ss : List String)
    (acc : List (String × List String)) (h : k ∉ acc.map Prod.fst) :
    List.foldl addEvent acc (feedEvents k (s :: ss)) = acc ++ [(k, s :: ss)] := by
  simp only [feedEvents, List.map_cons, List.foldl_cons]
  rw [show addEvent acc ⟨k, s⟩ = acc ++ [(k, [s])] from addEvent_fresh acc ⟨k, s⟩ h]
  have hrec := foldl_feed_existing k ss [s] acc [] h
  simp only [feedEvents] at hrec
  rw [hrec]
  simp

theorem foldl_feed_blocks :
    ∀ (us : List (String × List String)) (acc : List (String × List String)),
    (us.map Prod.fst).Nodup → (∀ kv ∈ us, kv.2 ≠ []) →
    (∀ kv ∈ us, kv.1 ∉ acc.map Prod.fst) →
    List.foldl addEvent acc (us.flatMap (fun kv => feedEvents kv.1 kv.2)) =
      acc ++ us := by
  intro us
  induction us with
  | nil => intro acc _ _ _; simp
  | cons kv rest ih =>
    obtain ⟨k, ss⟩ := kv
    intro acc hnodup hne hdisj
    obtain ⟨s, ss2, rfl⟩ : ∃ s ss2, ss = s :: ss2 := by
      cases ss with
      | nil => exact absurd rfl (hne (k, []) (by simp))
      | cons a b => exact ⟨a, b, rfl⟩
    simp only [List.flatMap_cons, List.foldl_append]
    rw [foldl_feed_fresh k s ss2 acc (hdisj (k, s :: ss2) (by simp))]
    have hkeys : (rest.map Prod.fst).Nodup := by
      have := hnodup
      simp only [List.map_cons, List.nodup_cons] at this
      exact this.2
    have hkfresh : k ∉ rest.map Prod.fst := by
      have := hnodup
      simp only [List.map_cons, List.nodup_cons] at this
      exact this.1
    rw [ih (acc ++ [(k, s :: ss2)]) hkeys
      (fun kv2 hkv2 => hne kv2 (List.mem_cons_of_mem _ hkv2)) ?_]
    · simp
    · intro kv2 hkv2
      simp only [List.map_append, List.mem_append]
      rintro (hmem | hmem)
      · exact hdisj kv2 (List.mem_cons_of_mem _ hkv2) hmem
      · simp only [List.map_cons, List.map_nil, List.mem_singleton] at hmem
        exact hkfresh (hmem ▸ List.mem_map_of_mem Prod.fst hkv2)

theorem groupEvents_roundtrip (us : List (String × List String))
    (hnodup : (us.map Prod.fst).Nodup) (hne : ∀ kv ∈ us, kv.2 ≠ []) :
    groupEvents (us.flatMap (fun kv => feedEvents kv.1 kv.2)) = us := by
  have h := foldl_feed_blocks us [] hnodup hne (by simp)
  simpa [groupEvents] using h

theorem resolveSentence_not_numeric (tax : String → String)
    (htax : ∀ s, isNumeric (tax s) = false) (s : String) :
    isNumeric (resolveSentence tax s) = false := by
  unfold resolveSentence
  by_cases h : isNumeric s
  · rw [if_pos h]; exact htax s
  · rw [if_neg h]; exact Bool.not_eq_true _ ▸ h

theorem transform_elements_not_numeric (tax : String → String)
    (htax : ∀ s, isNumeric (tax s) = false) (ss : List String) :
    ∀ x ∈ transform_iab_codes tax ss, isNumeric x = false := by
  intro x hx
  unfold transform_iab_codes at hx
  obtain ⟨y, _, rfl⟩ := List.mem_map.mp hx
  exact resolveSentence_not_numeric tax htax y

theorem transform_of_clean (tax : String → String) (ss : List String)
    (hclean : ∀ x ∈ ss, isNumeric x = false) :
    transform_iab_codes tax ss = pyDedup ss := by
  unfold transform_iab_codes
  have h : ∀ x ∈ pyDedup ss, resolveSentence tax x = x := by
    intro x hx
    have hc := hclean x ((pyDedup_mem x ss).mp hx)
    simp [resolveSentence, hc]
  rw [List.map_congr_left h]
  exact List.map_id _

theorem transform_ne_nil (tax : String → String) (ss : List String)
    (h : ss ≠ []) : transform_iab_codes tax ss ≠ [] := by
  unfold transform_iab_codes
  intro hc
  exact pyDedup_ne_nil ss h (List.map_eq_nil_iff.mp hc)

/-- C8 counterexample: aggregation is NOT idempotent on its own output at
the list level.  With code "7" resolving to "Sports", the events
[(m1,"7"), (m1,"Sports")] aggregate to m1 with fragments
["Sports","Sports"] (deduplication ran before resolution); feeding those
fragments back through aggregation collapses the two now-identical strings,
yielding m1 with ["Sports"]: a fragment occurrence was removed, so the
re-aggregated result differs from the first result. -/
theorem C8_counterexample :
    uniquify_md5s tax7 [⟨"m1", "7"⟩, ⟨"m1", "Sports"⟩]
      = [⟨"m1", ["Sports", "Sports"]⟩] ∧
    uniquify_md5s tax7
        (toIntentEvents (uniquify_md5s tax7 [⟨"m1", "7"⟩, ⟨"m1", "Sports"⟩]))
      = [⟨"m1", ["Sports"]⟩] ∧
    uniquify_md5s tax7
        (toIntentEvents (uniquify_md5s tax7 [⟨"m1", "7"⟩, ⟨"m1", "Sports"⟩]))
      ≠ uniquify_md5s tax7 [⟨"m1", "7"⟩, ⟨"m1", "Sports"⟩] := by
  decide

/-- C8 (amended): provided every category label is itself non-numeric,
re-aggregating an aggregation's own output preserves the identifiers (in
order) and the membership of every per-identifier fragment set — no fragment
value is added and none is lost — but it is not the identity: duplicate
fragment occurrences that the first pass left behind (a code and its label
in one group) are collapsed, so the re-aggregated result is exactly the
first result with each fragment list deduplicated. -/
theorem C8_reaggregation (tax : String → String) (evs : List IntentEvent)
    (htax : ∀ s, isNumeric (tax s) = false) :
    uniquify_md5s tax (toIntentEvents (uniquify_md5s tax evs)) =
      (uniquify_md5s tax evs).map (fun u => ⟨u.md5, pyDedup u.sentences⟩) ∧
    List.Forall₂ (fun a b => a.md5 = b.md5 ∧
        a.sentences ⊆ b.sentences ∧ b.sentences ⊆ a.sentences)
      (uniquify_md5s tax (toIntentEvents (uniquify_md5s tax evs)))
      (uniquify_md5s tax evs) := by
  have hmain : uniquify_md5s tax (toIntentEvents (uniquify_md5s tax evs)) =
      (uniquify_md5s tax evs).map (fun u => ⟨u.md5, pyDedup u.sentences⟩) := by
    have hkeys : (((groupEvents evs).map
        (fun kv => (kv.1, transform_iab_codes tax kv.2))).map Prod.fst).Nodup := by
      rw [List.map_map]
      exact groupEvents_keys_nodup evs
    have hvals : ∀ kv ∈ (groupEvents evs).map
        (fun kv => (kv.1, transform_iab_codes tax kv.2)), kv.2 ≠ [] := by
      intro kv hkv
      obtain ⟨kv0, hkv0, rfl⟩ := List.mem_map.mp hkv
      exact transform_ne_nil tax kv0.2 (groupEvents_vals_ne_nil evs kv0 hkv0)
    have heq : toIntentEvents (uniquify_md5s tax evs) =
        ((groupEvents evs).map
          (fun kv => (kv.1, transform_iab_codes tax kv.2))).flatMap
          (fun kv => feedEvents kv.1 kv.2) := by
      simp only [toIntentEvents, uniquify_md5s, mkUniqueMD5, List.flatMap_map]
    have hround : groupEvents (toIntentEvents (uniquify_md5s tax evs)) =
        (groupEvents evs).map (fun kv => (kv.1, transform_iab_codes tax kv.2)) := by
      rw [heq]
      exact groupEvents_roundtrip _ hkeys hvals
    show (groupEvents (toIntentEvents (uniquify_md5s tax evs))).map
        (fun kv => mkUniqueMD5 tax kv.1 kv.2) = _
    rw [hround]
    show _ = ((groupEvents evs).map (fun kv => mkUniqueMD5 tax kv.1 kv.2)).map
        (fun u => ⟨u.md5, pyDedup u.sentences⟩)
    rw [List.map_map, List.map_map]
    apply List.map_congr_left
    intro kv _
    simp only [Function.comp, mkUniqueMD5]
    rw [transform_of_clean tax _ (transform_elements_not_numeric tax htax kv.2)]
  refine ⟨hmain, ?_⟩
  rw [hmain]
  refine forall2_map_self _ _ (fun u => ⟨rfl, ?_, ?_⟩) _
  · intro a ha
    exact (pyDedup_mem a u.sentences).mp ha
  · intro a ha
    exact (pyDedup_mem a u.sentences).mpr ha

/-- C8 witness: the amended re-aggregation theorem applied at the concrete
lookup sending every code to "Sports" (a non-numeric label, so the
hypothesis holds) and the concrete events [(m1,"7"), (m1,"Sports")]. -/
theorem C8_reaggregation_witness :
    (∀ s, isNumeric (taxConst s) = false) ∧
    uniquify_md5s taxConst
        (toIntentEvents (uniquify_md5s taxConst [⟨"m1", "7"⟩, ⟨"m1", "Sports"⟩]))
      = (uniquify_md5s taxConst [⟨"m1", "7"⟩, ⟨"m1", "Sports"⟩]).map
          (fun u => ⟨u.md5, pyDedup u.sentences⟩) :=
  ⟨fun _ => rfl,
   (C8_reaggregation taxConst [⟨"m1", "7"⟩, ⟨"m1", "Sports"⟩] (fun _ => rfl)).1⟩
